import Mathlib

/-!
Verification of the TaskManager persistence/query core of
PersonalTaskManager.py, shallowly embedded in Lean 4.

The embedding models:
  * `Task` (five string fields) and its constructor semantics,
    in particular the Python truthiness test `task_id or str(uuid.uuid4())`;
  * the backing JSON file as a three-state value (absent, malformed,
    well-formed list of records), since the Python code distinguishes
    exactly these via `FileNotFoundError` / `json.JSONDecodeError`;
  * UUID generation as an explicitly passed supply of fresh strings;
  * Python string comparison (used by `sorted`) as lexicographic
    comparison of code-point sequences, and the Python substring test
    `x in y` as an explicit recursive search;
  * Python `sorted` (a stable ascending sort) as Mathlib stable
    `insertionSort`; all stable sorts over a total preorder comparator
    produce the same output sequence.
-/

namespace PTM

/-- A task record: the five string-valued attributes of the Python `Task`
class. -/
structure Task where
  id : String
  name : String
  description : String
  priority : String
  due_date : String
deriving DecidableEq

/-- `Task.__init__`: `self.id = task_id or str(uuid.uuid4())`.
The Python `or` takes the right operand when `task_id` is falsy, i.e.
`None` or the empty string; `fresh` stands for the generated
`str(uuid.uuid4())`. -/
def Task.init (name description priority due_date : String)
    (task_id : Option String) (fresh : String) : Task :=
  { id := match task_id with
          | none => fresh
          | some s => if s = "" then fresh else s
    name := name
    description := description
    priority := priority
    due_date := due_date }

/-- One serialized record of the backing file: the dict produced by
`Task.to_dict`, with exactly the five keys. -/
structure TaskDict where
  id : String
  name : String
  description : String
  priority : String
  due_date : String
deriving DecidableEq

/-- `Task.to_dict`. -/
def Task.to_dict (t : Task) : TaskDict :=
  { id := t.id, name := t.name, description := t.description,
    priority := t.priority, due_date := t.due_date }

/-- The backing file: absent (`FileNotFoundError` on open), present but
not valid JSON (`json.JSONDecodeError`), or a well-formed list of
five-field records. -/
inductive FileState where
  | absent : FileState
  | malformed : FileState
  | wellFormed : List TaskDict → FileState
deriving DecidableEq

/-- Does `needle` occur at the head of `haystack`? (Helper for the Python
substring test.) -/
def leadMatch : List Char → List Char → Bool
  | [], _ => true
  | _ :: _, [] => false
  | a :: as, b :: bs => a = b && leadMatch as bs

/-- Does `needle` occur contiguously anywhere in `haystack`? -/
def hasSub (needle : List Char) : List Char → Bool
  | [] => needle.isEmpty
  | b :: bs => leadMatch needle (b :: bs) || hasSub needle bs

/-- The Python substring test `needle in haystack` on strings. -/
def strContains (haystack needle : String) : Bool :=
  hasSub needle.data haystack.data

/-- Lexicographic (code-point) order on character sequences: the order
Python uses to compare strings. -/
def lexLe : List Char → List Char → Bool
  | [], _ => true
  | _ :: _, [] => false
  | a :: as, b :: bs => if a = b then lexLe as bs else decide (a < b)

/-- Python string comparison `a <= b`. -/
def strLe (a b : String) : Bool :=
  lexLe a.data b.data

/-- The store: the in-memory task list plus the backing file. The file
path is fixed at construction and every operation touches that single
file, so the file contents are modeled directly as part of the state. -/
structure TaskManager where
  tasks : List Task
  file : FileState
deriving DecidableEq

/-- The list comprehension of `load_tasks`: each dict is passed through
the `Task` constructor with `task_id=task["id"]`; `fresh k` is the UUID
the constructor would generate for record `k` were its stored id falsy. -/
def loadRecords (fresh : Nat → String) : Nat → List TaskDict → List Task
  | _, [] => []
  | k, d :: ds =>
      Task.init d.name d.description d.priority d.due_date (some d.id)
          (fresh k)
        :: loadRecords fresh (k + 1) ds

/-- `TaskManager.load_tasks`: a missing or JSON-malformed file yields `[]`
(the `except (FileNotFoundError, json.JSONDecodeError)` arm); a
well-formed file is mapped record-by-record through the `Task`
constructor, in file order. -/
def load_tasks (fs : FileState) (fresh : Nat → String) : List Task :=
  match fs with
  | .absent => []
  | .malformed => []
  | .wellFormed ds => loadRecords fresh 0 ds

/-- `TaskManager.__init__`: bind the file and load from it. -/
def TaskManager.init (fs : FileState) (fresh : Nat → String) : TaskManager :=
  { tasks := load_tasks fs fresh, file := fs }

/-- `TaskManager.save_tasks`: overwrite the backing file with
`[task.to_dict() for task in self.tasks]`. -/
def TaskManager.save_tasks (m : TaskManager) : TaskManager :=
  { m with file := .wellFormed (m.tasks.map Task.to_dict) }

/-- `TaskManager.add_task`: append, then save. -/
def TaskManager.add_task (m : TaskManager) (t : Task) : TaskManager :=
  TaskManager.save_tasks { m with tasks := m.tasks ++ [t] }

/-- The loop of `update_task`: find the first task whose `id` equals
`task_id` and replace that position with `updated`; `none` when the loop
falls through without a match. -/
def updateLoop (task_id : String) (updated : Task) :
    List Task → Option (List Task)
  | [] => none
  | t :: ts =>
      if t.id = task_id then some (updated :: ts)
      else (updateLoop task_id updated ts).map (t :: ·)

/-- `TaskManager.update_task`: replace the first task carrying `task_id`
and save, returning `True`; when none matches, return `False` without
touching the list or the file. -/
def TaskManager.update_task (m : TaskManager) (task_id : String)
    (updated : Task) : TaskManager × Bool :=
  match updateLoop task_id updated m.tasks with
  | some ts => (TaskManager.save_tasks { m with tasks := ts }, true)
  | none => (m, false)

/-- `TaskManager.delete_task`: keep every task whose id differs from
`task_id`, then save. -/
def TaskManager.delete_task (m : TaskManager) (task_id : String) :
    TaskManager :=
  TaskManager.save_tasks
    { m with tasks := m.tasks.filter (fun t => t.id != task_id) }

/-- `TaskManager.filter_tasks`: start from `self.tasks` and narrow it by
each criterion whose Python truthiness test fires (`name_filter` truthy,
`priority_filter != "All"`, `due_date_filter` truthy). -/
def TaskManager.filter_tasks (m : TaskManager)
    (name_filter priority_filter due_date_filter : String) : List Task :=
  let filtered := m.tasks
  let filtered :=
    if name_filter ≠ "" then
      filtered.filter (fun t => strContains t.name.toLower name_filter.toLower)
    else filtered
  let filtered :=
    if priority_filter ≠ "All" then
      filtered.filter (fun t => decide (t.priority = priority_filter))
    else filtered
  let filtered :=
    if due_date_filter ≠ "" then
      filtered.filter (fun t => decide (t.due_date = due_date_filter))
    else filtered
  filtered

/-- `filter_tasks` instrumented with object identity: the Boolean records
whether the returned list is the store's internal `self.tasks` list
object (`true`) or a freshly allocated list (`false`). In the source,
`filtered` is bound to `self.tasks` itself, and each criterion that fires
rebinds it to a new list comprehension. -/
def TaskManager.filter_tasksAlias (m : TaskManager)
    (name_filter priority_filter due_date_filter : String) :
    List Task × Bool :=
  let filtered := (m.tasks, true)
  let filtered :=
    if name_filter ≠ "" then
      (filtered.1.filter
          (fun t => strContains t.name.toLower name_filter.toLower),
        false)
    else filtered
  let filtered :=
    if priority_filter ≠ "All" then
      (filtered.1.filter (fun t => decide (t.priority = priority_filter)),
        false)
    else filtered
  let filtered :=
    if due_date_filter ≠ "" then
      (filtered.1.filter (fun t => decide (t.due_date = due_date_filter)),
        false)
    else filtered
  filtered

/-- `getattr(task, key)` for the five task attributes; `none` models the
`AttributeError` any other key would raise. -/
def Task.attr (t : Task) : String → Option String
  | "id" => some t.id
  | "name" => some t.name
  | "description" => some t.description
  | "priority" => some t.priority
  | "due_date" => some t.due_date
  | _ => none

/-- The string value of the named field; claims only evaluate it on the
five supported field names, where `attr` is `some`. -/
def fieldVal (key : String) (t : Task) : String :=
  (t.attr key).getD ""

/-- The comparator `sorted(self.tasks, key=lambda task: getattr(task,
key))` induces on tasks. -/
def taskLe (key : String) (a b : Task) : Bool :=
  strLe (fieldVal key a) (fieldVal key b)

instance taskLeDecidable (key : String) :
    DecidableRel (fun a b : Task => taskLe key a b = true) :=
  fun _ _ => instDecidableEqBool _ _

/-- `TaskManager.sort_tasks`: `sorted(self.tasks, key=lambda task:
getattr(task, key))` — a stable ascending sort by Python string
comparison of the chosen attribute, modeled by stable insertion sort
(every stable sort over a total preorder comparator yields the same
output sequence). Claims only use the five real attribute names; any
other key raises `AttributeError` in the source. -/
def TaskManager.sort_tasks (m : TaskManager) (key : String) : List Task :=
  List.insertionSort (fun a b : Task => taskLe key a b = true) m.tasks

/-- `sort_tasks` with the same object-identity instrumentation as
`filter_tasksAlias`: `sorted` always builds a new list, so the returned
list is never the internal `self.tasks` object. -/
def TaskManager.sort_tasksAlias (m : TaskManager) (key : String) :
    List Task × Bool :=
  (m.sort_tasks key, false)

/-- The attribute names that `sort_tasks` supports. -/
def supportedFields : List String :=
  ["id", "name", "description", "priority", "due_date"]

/-- Claim-side predicate (from the spec): the name criterion — empty
pattern matches everything, otherwise case-insensitive substring. -/
def nameMatches (n : String) (t : Task) : Bool :=
  decide (n = "") || strContains t.name.toLower n.toLower

/-- Claim-side predicate (from the spec): the priority criterion — the
sentinel "All" matches everything, otherwise exact match. -/
def priorityMatches (p : String) (t : Task) : Bool :=
  decide (p = "All") || decide (t.priority = p)

/-- Claim-side predicate (from the spec): the due-date criterion — empty
matches everything, otherwise exact match. -/
def dueMatches (d : String) (t : Task) : Bool :=
  decide (d = "") || decide (t.due_date = d)

/-- All stored ids are non-empty: the invariant the `Task` constructor
guarantees (a falsy `task_id` is replaced by a UUID string). -/
abbrev idsNonEmpty (ts : List Task) : Prop :=
  ∀ t ∈ ts, t.id ≠ ""

/-- Sample task (concrete instantiations). -/
def tMilk : Task :=
  { id := "id1", name := "Buy milk", description := "",
    priority := "High", due_date := "2024-01-01" }

/-- Sample task (concrete instantiations). -/
def tRent : Task :=
  { id := "id2", name := "Pay rent", description := "",
    priority := "Low", due_date := "2024-01-05" }

/-- Sample task (concrete instantiations). -/
def tCode : Task :=
  { id := "id3", name := "Write code", description := "fun",
    priority := "Medium", due_date := "2024-02-01" }

/-- Sample store holding `tMilk` and `tRent`, with the file in sync. -/
def sampleM : TaskManager :=
  { tasks := [tMilk, tRent],
    file := FileState.wellFormed ([tMilk, tRent].map Task.to_dict) }

/-- Sample store holding `tCode` and `tRent`, with the file in sync. -/
def sampleM2 : TaskManager :=
  { tasks := [tCode, tRent],
    file := FileState.wellFormed ([tCode, tRent].map Task.to_dict) }

theorem lexLe_refl : ∀ a : List Char, lexLe a a = true
  | [] => rfl
  | a :: as => by simp [lexLe, lexLe_refl as]

theorem lexLe_total : ∀ a b : List Char, (lexLe a b || lexLe b a) = true
  | [], _ => by simp [lexLe]
  | _ :: _, [] => by simp [lexLe]
  | a :: as, b :: bs => by
    by_cases h : a = b
    · subst h
      simpa [lexLe] using lexLe_total as bs
    · rcases lt_or_gt_of_ne h with hlt | hgt
      · simp [lexLe, h, hlt]
      · simp [lexLe, h, Ne.symm h, not_lt_of_gt hgt, hgt]

theorem lexLe_trans :
    ∀ a b c : List Char, lexLe a b = true → lexLe b c = true →
      lexLe a c = true
  | [], _, _, _, _ => rfl
  | _ :: _, [], _, h, _ => by simp [lexLe] at h
  | _ :: _, _ :: _, [], _, h => by simp [lexLe] at h
  | a :: as, b :: bs, c :: cs, h1, h2 => by
    by_cases hab : a = b <;> by_cases hbc : b = c
    · subst hab; subst hbc
      simp only [lexLe, if_pos rfl] at h1 h2 ⊢
      exact lexLe_trans as bs cs h1 h2
    · subst hab
      simpa [lexLe, hbc] using h2
    · subst hbc
      simpa [lexLe, hab] using h1
    · simp only [lexLe, if_neg hab, decide_eq_true_eq] at h1
      simp only [lexLe, if_neg hbc, decide_eq_true_eq] at h2
      have hac : a < c := lt_trans h1 h2
      simp [lexLe, ne_of_lt hac, hac]

theorem strLe_refl (a : String) : strLe a a = true :=
  lexLe_refl a.data

theorem strLe_total (a b : String) : (strLe a b || strLe b a) = true :=
  lexLe_total a.data b.data

theorem strLe_trans {a b c : String} (h1 : strLe a b = true)
    (h2 : strLe b c = true) : strLe a c = true :=
  lexLe_trans a.data b.data c.data h1 h2

theorem taskLe_trans (key : String) {a b c : Task}
    (h1 : taskLe key a b = true) (h2 : taskLe key b c = true) :
    taskLe key a c = true :=
  strLe_trans h1 h2

theorem taskLe_total (key : String) (a b : Task) :
    taskLe key a b = true ∨ taskLe key b a = true := by
  have h := strLe_total (fieldVal key a) (fieldVal key b)
  rcases Bool.or_eq_true_iff.mp h with h | h
  · exact Or.inl h
  · exact Or.inr h

theorem updateLoop_none (i : String) (u : Task) :
    ∀ ts : List Task, (∀ t ∈ ts, t.id ≠ i) → updateLoop i u ts = none
  | [], _ => rfl
  | t :: ts, h => by
    have ht : t.id ≠ i := h t (List.mem_cons_self t ts)
    simp only [updateLoop, if_neg ht,
      updateLoop_none i u ts fun x hx => h x (List.mem_cons_of_mem t hx),
      Option.map_none']

theorem updateLoop_some (i : String) (u : Task) :
    ∀ (ts : List Task) (j : Nat),
      ts.findIdx? (fun t => t.id == i) = some j →
      updateLoop i u ts = some (ts.set j u)
  | [], j, h => by simp at h
  | t :: ts, j, h => by
    by_cases ht : t.id = i
    · have : j = 0 := by
        simp [List.findIdx?_cons, ht] at h
        omega
      subst this
      simp [updateLoop, if_pos ht]
    · have ht' : (t.id == i) = false := by simp [ht]
      rw [List.findIdx?_cons, ht'] at h
      simp only [Bool.false_eq_true, if_false, List.findIdx?_succ] at h
      rcases Option.map_eq_some'.mp h with ⟨j', hj', rfl⟩
      simp [updateLoop, if_neg ht, updateLoop_some i u ts j' hj']

theorem updateLoop_mem (i : String) (u : Task) :
    ∀ ts ts' : List Task, updateLoop i u ts = some ts' →
      ∀ x ∈ ts', x = u ∨ x ∈ ts
  | [], _, h => by simp [updateLoop] at h
  | t :: ts, ts', h => by
    by_cases ht : t.id = i
    · simp only [updateLoop, if_pos ht, Option.some.injEq] at h
      subst h
      intro x hx
      rcases List.mem_cons.mp hx with rfl | hx
      · exact Or.inl rfl
      · exact Or.inr (List.mem_cons_of_mem t hx)
    · simp only [updateLoop, if_neg ht] at h
      rcases Option.map_eq_some'.mp h with ⟨ts'', h'', rfl⟩
      intro x hx
      rcases List.mem_cons.mp hx with rfl | hx
      · exact Or.inr (List.mem_cons_self x ts)
      · rcases updateLoop_mem i u ts ts'' h'' x hx with hu | hm
        · exact Or.inl hu
        · exact Or.inr (List.mem_cons_of_mem t hm)

theorem loadRecords_length (fresh : Nat → String) :
    ∀ (ds : List TaskDict) (k : Nat),
      (loadRecords fresh k ds).length = ds.length
  | [], _ => rfl
  | _ :: ds, k => by
    simp [loadRecords, loadRecords_length fresh ds (k + 1)]

theorem loadRecords_getElem? (fresh : Nat → String) :
    ∀ (ds : List TaskDict) (k j : Nat),
      (loadRecords fresh k ds)[j]? =
        ds[j]?.map (fun d =>
          Task.init d.name d.description d.priority d.due_date (some d.id)
            (fresh (k + j)))
  | [], _, _ => by simp [loadRecords]
  | d :: ds, k, 0 => by simp [loadRecords]
  | d :: ds, k, j + 1 => by
    have ih := loadRecords_getElem? fresh ds (k + 1) j
    simp only [loadRecords, List.getElem?_cons_succ, ih]
    have : k + 1 + j = k + (j + 1) := by omega
    rw [this]

theorem loadRecords_map_to_dict (fresh : Nat → String) :
    ∀ (ts : List Task) (k : Nat), idsNonEmpty ts →
      loadRecords fresh k (ts.map Task.to_dict) = ts
  | [], _, _ => rfl
  | t :: ts, k, h => by
    have h1 : t.id ≠ "" := h t (List.mem_cons_self t ts)
    have ih := loadRecords_map_to_dict fresh ts (k + 1)
      fun x hx => h x (List.mem_cons_of_mem t hx)
    simp [loadRecords, Task.to_dict, Task.init, h1, ih]

/-- C10: the `Task` constructor generates a fresh UUID id for every falsy
`task_id` — both when the argument is omitted (`None`) and when it is the
explicit empty string — while a non-empty explicit id is stored
verbatim. -/
theorem C10_task_init_falsy_id (n de p dd fresh : String) :
    (Task.init n de p dd none fresh).id = fresh ∧
    (Task.init n de p dd (some "") fresh).id = fresh ∧
    ∀ s : String, s ≠ "" → (Task.init n de p dd (some s) fresh).id = s := by
  refine ⟨rfl, by simp [Task.init], fun s hs => ?_⟩
  simp [Task.init, hs]

/-- Witness for C10 at concrete inputs. -/
theorem C10_task_init_falsy_id_witness :
    ("abc" : String) ≠ "" ∧
    (Task.init "n" "d" "High" "2024-01-01" (some "") "u-1").id = "u-1" ∧
    (Task.init "n" "d" "High" "2024-01-01" (some "abc") "u-1").id = "abc" := by
  have h := C10_task_init_falsy_id "n" "d" "High" "2024-01-01" "u-1"
  exact ⟨by decide, h.2.1, h.2.2 "abc" (by decide)⟩

/-- C8: `add_task` appends the task at the end — the list grows by one,
the new task is the last element, earlier tasks keep their values and
positions — and then persists the appended list; no duplicate-id check
constrains the argument. -/
theorem C8_add_task_appends (m : TaskManager) (t : Task) :
    (m.add_task t).tasks = m.tasks ++ [t] ∧
    (m.add_task t).tasks.length = m.tasks.length + 1 ∧
    (m.add_task t).tasks.getLast? = some t ∧
    (∀ j, j < m.tasks.length → (m.add_task t).tasks[j]? = m.tasks[j]?) ∧
    (m.add_task t).file =
      FileState.wellFormed ((m.tasks ++ [t]).map Task.to_dict) := by
  refine ⟨rfl, by simp [TaskManager.add_task, TaskManager.save_tasks],
    ?_, ?_, rfl⟩
  · exact List.getLast?_concat m.tasks
  · intro j hj
    show (m.tasks ++ [t])[j]? = m.tasks[j]?
    exact List.getElem?_append_left hj

/-- Witness for C8 at a concrete store, with a duplicate id on purpose
(`tMilk` is already stored): the append happens regardless. -/
theorem C8_add_task_appends_witness :
    (1 : Nat) < sampleM.tasks.length ∧
    (sampleM.add_task tMilk).tasks = sampleM.tasks ++ [tMilk] ∧
    (sampleM.add_task tMilk).tasks[1]? = sampleM.tasks[1]? := by
  have h := C8_add_task_appends sampleM tMilk
  exact ⟨by decide, h.1, h.2.2.2.1 1 (by decide)⟩

/-- C7: `delete_task` removes exactly the tasks whose id equals the given
id, keeps the survivors in their original relative order (the result is a
sublist of the original), and persists the filtered list; when no stored
task carries the id, the list is unchanged yet the file is still
rewritten. -/
theorem C7_delete_task_spec (m : TaskManager) (i : String) :
    (m.delete_task i).tasks = m.tasks.filter (fun t => t.id != i) ∧
    (m.delete_task i).tasks.Sublist m.tasks ∧
    (∀ t : Task, t ∈ (m.delete_task i).tasks ↔ t ∈ m.tasks ∧ t.id ≠ i) ∧
    (m.delete_task i).file =
      FileState.wellFormed
        ((m.tasks.filter (fun t => t.id != i)).map Task.to_dict) ∧
    ((∀ t ∈ m.tasks, t.id ≠ i) → (m.delete_task i).tasks = m.tasks) := by
  refine ⟨rfl, List.filter_sublist _, ?_, rfl, ?_⟩
  · intro t
    show t ∈ m.tasks.filter (fun t => t.id != i) ↔ _
    simp [List.mem_filter]
  · intro h
    show m.tasks.filter (fun t => t.id != i) = m.tasks
    refine List.filter_eq_self.mpr fun t ht => ?_
    simp [h t ht]

/-- Witness for C7: deleting an id nobody carries leaves the list
unchanged (while the file write still happens, per the main theorem). -/
theorem C7_delete_task_spec_witness :
    (∀ t ∈ sampleM.tasks, t.id ≠ "nope") ∧
    (sampleM.delete_task "nope").tasks = sampleM.tasks := by
  have h := C7_delete_task_spec sampleM "nope"
  exact ⟨by decide, h.2.2.2.2 (by decide)⟩

/-- C1: `update_task` replaces the first task whose id matches — same
position, all other positions unchanged, length unchanged, the
replacement stored verbatim with no check that its own id matches the
target id — then persists and returns `True`; when no stored task
matches, it returns `False` and leaves both the list and the backing
file unchanged. -/
theorem C1_update_task_spec (m : TaskManager) (i : String) (t : Task) :
    (∀ j, m.tasks.findIdx? (fun a => a.id == i) = some j →
      (m.update_task i t).2 = true ∧
      (m.update_task i t).1.tasks = m.tasks.set j t ∧
      (m.update_task i t).1.tasks.length = m.tasks.length ∧
      (m.update_task i t).1.tasks[j]? = some t ∧
      (∀ k, k ≠ j → (m.update_task i t).1.tasks[k]? = m.tasks[k]?) ∧
      (m.update_task i t).1.file =
        FileState.wellFormed ((m.tasks.set j t).map Task.to_dict)) ∧
    ((∀ u ∈ m.tasks, u.id ≠ i) →
      (m.update_task i t).2 = false ∧ (m.update_task i t).1 = m) := by
  constructor
  · intro j hj
    have hsome := updateLoop_some i t m.tasks j hj
    have hjlen : j < m.tasks.length := by
      rcases List.findIdx?_eq_some_iff_getElem.mp hj with ⟨hlt, -, -⟩
      exact hlt
    have heq : (m.update_task i t).1.tasks = m.tasks.set j t := by
      simp [TaskManager.update_task, hsome, TaskManager.save_tasks]
    refine ⟨by simp [TaskManager.update_task, hsome], heq,
      by simp [heq], ?_, ?_,
      by simp [TaskManager.update_task, hsome, TaskManager.save_tasks]⟩
    · rw [heq]
      exact List.getElem?_set_self hjlen
    · intro k hk
      rw [heq]
      exact List.getElem?_set_ne (Ne.symm hk)
  · intro h
    have hnone := updateLoop_none i t m.tasks h
    exact ⟨by simp [TaskManager.update_task, hnone],
      by simp [TaskManager.update_task, hnone]⟩

/-- Witness for C1 at concrete stores: a successful update with a
replacement whose id (`id3`) differs from the target id (`id1`) — stored
as-is — and a failed update on an absent id. -/
theorem C1_update_task_spec_witness :
    sampleM.tasks.findIdx? (fun a => a.id == "id1") = some 0 ∧
    (sampleM.update_task "id1" tCode).2 = true ∧
    (sampleM.update_task "id1" tCode).1.tasks = sampleM.tasks.set 0 tCode ∧
    (sampleM.update_task "id1" tCode).1.tasks[1]? = sampleM.tasks[1]? ∧
    (∀ u ∈ sampleM2.tasks, u.id ≠ "ghost") ∧
    (sampleM2.update_task "ghost" tMilk).2 = false ∧
    (sampleM2.update_task "ghost" tMilk).1 = sampleM2 := by
  have h := C1_update_task_spec sampleM "id1" tCode
  have h2 := C1_update_task_spec sampleM2 "ghost" tMilk
  have ha := h.1 0 (by decide)
  have hb := h2.2 (by decide)
  exact ⟨by decide, ha.1, ha.2.1, ha.2.2.2.2.1 1 (by decide), by decide,
    hb.1, hb.2⟩

/-- C3: `filter_tasks` returns exactly the stored tasks satisfying all
three criteria (AND semantics): it equals a single pass filtering by the
conjunction of the three predicates, also with the criteria conjoined in
the opposite order (order of application is irrelevant), and a task is in
the result precisely when it is stored and satisfies all three. -/
theorem C3_filter_tasks_spec (m : TaskManager) (n p d : String) :
    m.filter_tasks n p d =
      m.tasks.filter
        (fun t => nameMatches n t && priorityMatches p t && dueMatches d t) ∧
    m.filter_tasks n p d =
      m.tasks.filter
        (fun t => dueMatches d t && priorityMatches p t && nameMatches n t) ∧
    ∀ t : Task, t ∈ m.filter_tasks n p d ↔
      t ∈ m.tasks ∧ nameMatches n t ∧ priorityMatches p t ∧ dueMatches d t := by
  have key : m.filter_tasks n p d =
      m.tasks.filter
        (fun t => nameMatches n t && priorityMatches p t && dueMatches d t) := by
    unfold TaskManager.filter_tasks
    by_cases hn : n = "" <;> by_cases hp : p = "All" <;> by_cases hd : d = "" <;>
      simp [hn, hp, hd, nameMatches, priorityMatches, dueMatches,
        List.filter_filter, Bool.and_comm, Bool.and_left_comm, Bool.and_assoc]
  refine ⟨key, ?_, ?_⟩
  · rw [key]
    refine List.filter_congr fun t _ => ?_
    cases hnm : nameMatches n t <;> cases hpm : priorityMatches p t <;>
      cases hdm : dueMatches d t <;> rfl
  · intro t
    rw [key]
    simp [List.mem_filter, and_assoc]

/-- C5: `load_tasks` recovers silently from a bad backing file — absent
or JSON-malformed contents give the empty task list, with no error
surfaced — while a well-formed file is deserialized record-by-record in
file order: the result has the same length, the four value fields of
record `j` are copied verbatim into task `j`, and the stored id is
preserved whenever it is non-empty (a falsy stored id is replaced by a
fresh UUID by the `Task` constructor the loader calls). -/
theorem C5_load_tasks_spec (fresh : Nat → String) :
    load_tasks FileState.absent fresh = [] ∧
    load_tasks FileState.malformed fresh = [] ∧
    ∀ ds : List TaskDict,
      (load_tasks (FileState.wellFormed ds) fresh).length = ds.length ∧
      ∀ j, j < ds.length →
        ∃ t : Task,
          (load_tasks (FileState.wellFormed ds) fresh)[j]? = some t ∧
          ∃ d : TaskDict, ds[j]? = some d ∧
            t.name = d.name ∧ t.description = d.description ∧
            t.priority = d.priority ∧ t.due_date = d.due_date ∧
            (d.id ≠ "" → t.id = d.id) := by
  refine ⟨rfl, rfl, fun ds => ⟨loadRecords_length fresh ds 0, ?_⟩⟩
  intro j hj
  have hget := loadRecords_getElem? fresh ds 0 j
  have hd : ds[j]? = some ds[j] := List.getElem?_eq_getElem hj
  refine ⟨Task.init (ds[j]).name (ds[j]).description (ds[j]).priority
      (ds[j]).due_date (some (ds[j]).id) (fresh (0 + j)), ?_,
    ds[j], hd, rfl, rfl, rfl, rfl, ?_⟩
  · show (loadRecords fresh 0 ds)[j]? = _
    rw [hget, hd, Option.map_some']
  · intro hid
    simp [Task.init, hid]

/-- Witness for C5 at a concrete well-formed file of one record (plus the
absent-file case). -/
theorem C5_load_tasks_spec_witness :
    load_tasks FileState.absent (fun _ => "u") = [] ∧
    (0 : Nat) < ([Task.to_dict tMilk] : List TaskDict).length ∧
    (∃ t : Task,
      (load_tasks (FileState.wellFormed [Task.to_dict tMilk])
          (fun _ => "u"))[0]? = some t ∧
      ∃ d : TaskDict, ([Task.to_dict tMilk] : List TaskDict)[0]? = some d ∧
        t.name = d.name ∧ t.description = d.description ∧
        t.priority = d.priority ∧ t.due_date = d.due_date ∧
        (d.id ≠ "" → t.id = d.id)) := by
  have h := C5_load_tasks_spec (fun _ => "u")
  exact ⟨h.1, by decide, (h.2.2 [Task.to_dict tMilk]).2 0 (by decide)⟩

/-- C2: serialize-then-deserialize is the identity on task sequences
whose ids are non-empty (the invariant the `Task` constructor guarantees,
since `task_id or str(uuid.uuid4())` never yields an empty id), and
consequently after each successful mutating operation, a fresh store
constructed from the written file carries exactly the mutated store's
task sequence. -/
theorem C2_roundtrip_durability (fresh : Nat → String) :
    (∀ ts : List Task, idsNonEmpty ts →
      load_tasks (FileState.wellFormed (ts.map Task.to_dict)) fresh = ts) ∧
    (∀ (m : TaskManager) (t : Task), idsNonEmpty m.tasks → t.id ≠ "" →
      (TaskManager.init (m.add_task t).file fresh).tasks =
        (m.add_task t).tasks) ∧
    (∀ (m : TaskManager) (i : String) (t : Task),
      idsNonEmpty m.tasks → t.id ≠ "" →
      (m.update_task i t).2 = true →
      (TaskManager.init (m.update_task i t).1.file fresh).tasks =
        (m.update_task i t).1.tasks) ∧
    (∀ (m : TaskManager) (i : String), idsNonEmpty m.tasks →
      (TaskManager.init (m.delete_task i).file fresh).tasks =
        (m.delete_task i).tasks) := by
  have roundtrip : ∀ ts : List Task, idsNonEmpty ts →
      load_tasks (FileState.wellFormed (ts.map Task.to_dict)) fresh = ts :=
    fun ts h => loadRecords_map_to_dict fresh ts 0 h
  refine ⟨roundtrip, ?_, ?_, ?_⟩
  · intro m t hm ht
    refine roundtrip (m.tasks ++ [t]) fun x hx => ?_
    rcases List.mem_append.mp hx with hx | hx
    · exact hm x hx
    · rcases List.mem_singleton.mp hx with rfl
      exact ht
  · intro m i t hm ht h2
    cases heq : updateLoop i t m.tasks with
    | none =>
      rw [TaskManager.update_task, heq] at h2
      exact absurd h2 (by simp)
    | some ts' =>
      have hres : (m.update_task i t).1 =
          TaskManager.save_tasks { m with tasks := ts' } := by
        simp [TaskManager.update_task, heq]
      rw [hres]
      refine roundtrip ts' fun x hx => ?_
      rcases updateLoop_mem i t m.tasks ts' heq x hx with rfl | hxm
      · exact ht
      · exact hm x hxm
  · intro m i hm
    refine roundtrip (m.tasks.filter (fun t => t.id != i)) fun x hx => ?_
    exact hm x (List.mem_of_mem_filter hx)

/-- Witness for C2 at concrete inputs: a one-task round-trip and
durability of a concrete `add_task`. -/
theorem C2_roundtrip_durability_witness :
    idsNonEmpty [tMilk] ∧ tCode.id ≠ "" ∧
    load_tasks (FileState.wellFormed ([tMilk].map Task.to_dict))
        (fun _ => "u") = [tMilk] ∧
    (TaskManager.init (sampleM.add_task tCode).file (fun _ => "u")).tasks =
      (sampleM.add_task tCode).tasks := by
  have h := C2_roundtrip_durability (fun _ => "u")
  exact ⟨by decide, by decide, h.1 [tMilk] (by decide),
    h.2.1 sampleM tCode (by decide) (by decide)⟩

/-- C4: for each supported field name, `sort_tasks` returns a permutation
of the stored tasks (same multiset, nothing added or dropped), ordered
non-decreasing by Python string comparison of that field's value, and
stably: for every key value, the tasks carrying that value appear in the
output in their original relative order. -/
theorem C4_sort_tasks_spec (m : TaskManager) (f : String)
    (hf : f ∈ supportedFields) :
    (m.sort_tasks f).Perm m.tasks ∧
    (m.sort_tasks f).Pairwise (fun a b => taskLe f a b = true) ∧
    ∀ v : String,
      (m.sort_tasks f).filter (fun t => fieldVal f t == v) =
        m.tasks.filter (fun t => fieldVal f t == v) := by
  refine ⟨List.perm_insertionSort _ _, ?_, ?_⟩
  · haveI : IsTotal Task (fun a b => taskLe f a b = true) :=
      ⟨taskLe_total f⟩
    haveI : IsTrans Task (fun a b => taskLe f a b = true) :=
      ⟨fun _ _ _ => taskLe_trans f⟩
    exact List.sorted_insertionSort _ _
  · intro v
    have hall : ∀ t ∈ m.tasks.filter (fun t => fieldVal f t == v),
        fieldVal f t = v := by
      intro t ht
      have := (List.mem_filter.mp ht).2
      simpa using this
    have hpair :
        (m.tasks.filter (fun t => fieldVal f t == v)).Pairwise
          (fun a b => taskLe f a b = true) := by
      refine List.pairwise_of_forall_mem_list fun a ha b hb => ?_
      show taskLe f a b = true
      rw [taskLe, hall a ha, hall b hb]
      exact strLe_refl v
    have hsub : List.Sublist (m.tasks.filter (fun t => fieldVal f t == v))
        (m.sort_tasks f) :=
      List.sublist_insertionSort hpair (List.filter_sublist _)
    have hself :
        (m.tasks.filter (fun t => fieldVal f t == v)).filter
            (fun t => fieldVal f t == v) =
          m.tasks.filter (fun t => fieldVal f t == v) :=
      List.filter_eq_self.mpr fun a ha => (List.mem_filter.mp ha).2
    have hsub2 : List.Sublist (m.tasks.filter (fun t => fieldVal f t == v))
        ((m.sort_tasks f).filter (fun t => fieldVal f t == v)) := by
      have := hsub.filter (fun t => fieldVal f t == v)
      rwa [hself] at this
    have hlen :
        (m.tasks.filter (fun t => fieldVal f t == v)).length =
          ((m.sort_tasks f).filter (fun t => fieldVal f t == v)).length :=
      (((List.perm_insertionSort _ _).filter
        (fun t => fieldVal f t == v)).length_eq).symm
    exact (hsub2.eq_of_length hlen).symm

/-- Witness for C4 at a concrete store and field. -/
theorem C4_sort_tasks_spec_witness :
    "due_date" ∈ supportedFields ∧
    (sampleM.sort_tasks "due_date").Perm sampleM.tasks ∧
    (sampleM.sort_tasks "due_date").filter
        (fun t => fieldVal "due_date" t == "2024-01-01") =
      sampleM.tasks.filter
        (fun t => fieldVal "due_date" t == "2024-01-01") := by
  have h := C4_sort_tasks_spec sampleM "due_date" (by decide)
  exact ⟨by decide, h.1, h.2.2 "2024-01-01"⟩

/-- C9: sorting by `priority` is plain alphabetical string comparison,
not severity order: in `sort_tasks "priority"` over a store whose
priorities all lie in High / Medium / Low, every High task precedes every
Low task, and every Low task precedes every Medium task. -/
theorem C9_priority_sort_alphabetical (m : TaskManager)
    (hall : ∀ t ∈ m.tasks,
      t.priority = "High" ∨ t.priority = "Medium" ∨ t.priority = "Low") :
    ∀ (i j : Nat) (a b : Task),
      (m.sort_tasks "priority")[i]? = some a →
      (m.sort_tasks "priority")[j]? = some b →
      (a.priority = "High" → b.priority = "Low" → i < j) ∧
      (a.priority = "Low" → b.priority = "Medium" → i < j) := by
  have hsorted : (m.sort_tasks "priority").Pairwise
      (fun a b => taskLe "priority" a b = true) := by
    haveI : IsTotal Task (fun a b => taskLe "priority" a b = true) :=
      ⟨taskLe_total "priority"⟩
    haveI : IsTrans Task (fun a b => taskLe "priority" a b = true) :=
      ⟨fun _ _ _ => taskLe_trans "priority"⟩
    exact List.sorted_insertionSort _ _
  have hrel := List.pairwise_iff_getElem.mp hsorted
  intro i j a b ha hb
  have key : strLe b.priority a.priority = false →
      a.priority ≠ b.priority → i < j := by
    intro hf hne
    rcases List.getElem?_eq_some_iff.mp ha with ⟨hi, hia⟩
    rcases List.getElem?_eq_some_iff.mp hb with ⟨hj, hjb⟩
    rcases Nat.lt_trichotomy i j with h | h | h
    · exact h
    · subst h
      exact absurd (congrArg Task.priority (hia.symm.trans hjb)) hne
    · have hle := hrel j i hj hi h
      rw [taskLe] at hle
      have hfv : ∀ t : Task, fieldVal "priority" t = t.priority :=
        fun t => rfl
      rw [hfv, hfv, hjb, hia] at hle
      rw [hle] at hf
      exact absurd hf (by simp)
  constructor
  · intro h1 h2
    refine key ?_ ?_ <;> rw [h1, h2] <;> decide
  · intro h1 h2
    refine key ?_ ?_ <;> rw [h1, h2] <;> decide

/-- Witness for C9 at concrete stores: High before Low (first store), and
Low before Medium (second store), in the alphabetically sorted output. -/
theorem C9_priority_sort_alphabetical_witness :
    (∀ t ∈ sampleM.tasks,
      t.priority = "High" ∨ t.priority = "Medium" ∨ t.priority = "Low") ∧
    (sampleM.sort_tasks "priority")[0]? = some tMilk ∧
    (sampleM.sort_tasks "priority")[1]? = some tRent ∧
    (sampleM2.sort_tasks "priority")[0]? = some tRent ∧
    (sampleM2.sort_tasks "priority")[1]? = some tCode ∧
    (0 : Nat) < 1 := by
  have hallA : ∀ t ∈ sampleM.tasks,
      t.priority = "High" ∨ t.priority = "Medium" ∨ t.priority = "Low" :=
    by decide
  have hallB : ∀ t ∈ sampleM2.tasks,
      t.priority = "High" ∨ t.priority = "Medium" ∨ t.priority = "Low" :=
    by decide
  have hA0 : (sampleM.sort_tasks "priority")[0]? = some tMilk := by decide
  have hA1 : (sampleM.sort_tasks "priority")[1]? = some tRent := by decide
  have hB0 : (sampleM2.sort_tasks "priority")[0]? = some tRent := by decide
  have hB1 : (sampleM2.sort_tasks "priority")[1]? = some tCode := by decide
  have hHL :=
    (C9_priority_sort_alphabetical sampleM hallA 0 1 tMilk tRent hA0 hA1).1
      (by decide) (by decide)
  have hLM :=
    (C9_priority_sort_alphabetical sampleM2 hallB 0 1 tRent tCode hB0 hB1).2
      (by decide) (by decide)
  exact ⟨hallA, hA0, hA1, hB0, hB1, hHL⟩

/-- C6 counterexample: with no active criterion (empty name pattern,
priority "All", empty due-date) `filter_tasks` returns the store's
internal `self.tasks` list object itself — the alias flag of the
instrumented embedding is `true` — so the returned sequence is not
independent of the store's internal one, and a caller mutating it would
mutate the store. -/
theorem C6_filter_alias_counterexample :
    (sampleM.filter_tasksAlias "" "All" "").2 = true ∧
    (sampleM.filter_tasksAlias "" "All" "").1 = sampleM.tasks := by
  exact ⟨by decide, by decide⟩

/-- C6 amended: `filter_tasks` and `sort_tasks` are read-only — pure
functions of the store that trigger no save and return no new store —
and `sort_tasks` always returns a freshly built list; `filter_tasks`
returns a fresh list exactly when at least one criterion is active, and
with no active criterion it returns the store's internal list itself. -/
theorem C6_read_only_queries (m : TaskManager) (n p d key : String) :
    (m.filter_tasksAlias n p d).1 = m.filter_tasks n p d ∧
    ((m.filter_tasksAlias n p d).2 = true ↔ n = "" ∧ p = "All" ∧ d = "") ∧
    (m.sort_tasksAlias key).1 = m.sort_tasks key ∧
    (m.sort_tasksAlias key).2 = false := by
  refine ⟨?_, ?_, rfl, rfl⟩
  · unfold TaskManager.filter_tasksAlias TaskManager.filter_tasks
    by_cases hn : n = "" <;> by_cases hp : p = "All" <;>
      by_cases hd : d = "" <;> simp [hn, hp, hd]
  · unfold TaskManager.filter_tasksAlias
    by_cases hn : n = "" <;> by_cases hp : p = "All" <;>
      by_cases hd : d = "" <;> simp [hn, hp, hd]

end PTM
